import Mathlib

/-!
Verification development for the cross-network record synchronization engine
of the Primal-Genesis-Engine-Sovereign repository.

The embedded code lives in
  src/athenamist_integration/core/quantum_sync.py     (orchestrator, resolvers)
  src/athenamist_integration/core/quantum_network.py  (cancel_sync_operation)
  src/athenamist_integration/core/quantum_memory.py   (encoder, similarity)

Modelling conventions:
* Python `dict` objects are insertion-ordered association lists
  `List (String × _)`; `dict.get`, `dict.update` and `k in d` are embedded
  below with Python's first-binding / overwrite-in-place semantics.
* Python `datetime.utcnow()` values are abstract clock ticks (`Nat`); each
  status update stamps a strictly later tick.
* Floating point entropy scores are modelled as rationals (`Rat`): every
  comparison the code performs on them is an order comparison, which agrees
  with rational order on the represented values.
* The stochastic parts (measurement `counts` sampled by
  `execute(qc, backend, shots=1024)`, network I/O results) are explicit
  oracle inputs to the embedded functions.
-/

/-- `SyncStatus` enum of quantum_sync.py. -/
inductive SyncStatus where
  | PENDING
  | IN_PROGRESS
  | COMPLETED
  | FAILED
  | CONFLICT
  deriving DecidableEq, Repr

/-- Payload values appearing inside a conflicting version's `data` map
(opaque to the engine; strings, numbers and booleans cover every value the
code ever constructs or moves). -/
inductive DVal where
  | s (v : String)
  | n (v : Rat)
  | b (v : Bool)
  deriving DecidableEq, Repr

/-- A conflicting version dictionary, as consumed by the four
`_resolve_by_*` strategies.  Every field is read with `dict.get`, so each is
an `Option`; `data` is `none` when the key is absent or its value is not a
dict (the code guards with `isinstance(conflict.get('data'), dict)`). -/
structure Conflict where
  version_id : Option String
  source_network : Option String
  timestamp : Option String
  quantum_entropy : Option Rat
  data : Option (List (String × DVal))
  deriving DecidableEq, Repr

/-- Per-network entry of `_push_sync`'s `results` dict: `{'status':'success'}`
or `{'status':'error','error': msg}`. -/
inductive NetResult where
  | success
  | error (msg : String)
  deriving DecidableEq, Repr

/-- Raw per-network dictionary found in `broadcast_results['network_results']`
before `_push_sync` normalizes it. -/
structure RawResult where
  status : String
  error : Option String
  deriving DecidableEq, Repr

/-- Result dictionaries returned by the `_resolve_by_*` strategies.  `empty`
is the bare `{}` returned when the conflicts list is empty. -/
inductive Resolution where
  | empty
  | latestVersion (selected : Option String) (timestamp : Option String) (applied : Bool)
  | highestEntropy (selected : Option String) (entropyVal : Rat) (applied : Bool)
  | sourcePriority (selected : Option String) (network : Option String)
      (priority : Int) (applied : Bool)
  | merged (sources : List String) (mergedFields : List String) (applied : Bool)
  deriving DecidableEq, Repr

/-- Python exceptions that can cross the embedded functions. -/
inductive PyErr where
  | valueError (msg : String)
  | notImplementedError (msg : String)
  | syncConflict (msg : String) (conflicts : List Conflict)
  | attributeError (msg : String)
  | exception (msg : String)
  deriving DecidableEq, Repr

/-- `str(e)` for each modelled exception (each is constructed with a single
message argument, so `str` returns that message). -/
def PyErr.msgOf : PyErr → String
  | .valueError m => m
  | .notImplementedError m => m
  | .syncConflict m _ => m
  | .attributeError m => m
  | .exception m => m

/-- Values stored in a `SyncOperation`'s free-form `metadata` dict.  Python
types them `Any`; the constructors below cover exactly the shapes the code
ever stores there. -/
inductive Value where
  | vstr (s : String)
  | vnum (q : Rat)
  | vbool (b : Bool)
  | vstrlist (ss : List String)
  | vconflicts (cs : List Conflict)
  | vnetresults (rs : List (String × NetResult))
  | vresolution (r : Resolution)
  deriving DecidableEq, Repr

/-- `d.get(k)` on a Python dict: value of the first (unique) binding of `k`. -/
def dictGet (d : List (String × Value)) (k : String) : Option Value :=
  (d.find? (fun p => p.1 == k)).map Prod.snd

/-- `d[k] = v` on a Python dict: overwrite the existing binding in place, or
append a new binding at the end. -/
def dictSet (d : List (String × Value)) (k : String) (v : Value) :
    List (String × Value) :=
  if d.any (fun p => p.1 == k) then
    d.map (fun p => if p.1 == k then (k, v) else p)
  else
    d ++ [(k, v)]

/-- `d.update(u)` on Python dicts: apply `dictSet` for each binding of `u`
in order. -/
def dictUpdate (d : List (String × Value)) : List (String × Value) →
    List (String × Value)
  | [] => d
  | (k, v) :: rest => dictUpdate (dictSet d k v) rest

/-- Quantum memory pattern (quantum_memory.py `QuantumMemoryPattern`).  The
`metadata` dict of the Python object is represented by its two
content-bearing entries (`original_memory` is kept as its serialized form,
`measurement_counts` as the sampled counts). -/
structure QuantumMemoryPattern where
  pattern_id : String
  qubits : Nat
  state : String
  entanglement_entropy : Rat
  original_memory : String
  binary_encoding : List Bool
  measurement_counts : List (String × Nat)
  deriving DecidableEq, Repr

/-- `SyncOperation` dataclass of quantum_sync.py. -/
structure SyncOperation where
  operation_id : String
  source_network : String
  target_networks : List String
  memory_pattern : QuantumMemoryPattern
  status : SyncStatus
  created_at : Nat
  updated_at : Nat
  metadata : List (String × Value)
  deriving DecidableEq, Repr

/-- `SyncOperation.update_status`: sets `status`, refreshes `updated_at`
(to the supplied clock tick), and — only when the argument is a non-empty
dict (Python's `if metadata:` truthiness test) — merges it into `metadata`
with `dict.update`. -/
def SyncOperation.update_status (op : SyncOperation) (now : Nat)
    (status : SyncStatus) (metadata : Option (List (String × Value))) :
    SyncOperation :=
  { op with
    status := status
    updated_at := now
    metadata :=
      match metadata with
      | none => op.metadata
      | some m => if m.isEmpty then op.metadata else dictUpdate op.metadata m }

/-! ## Conflict resolution strategies (quantum_sync.py `_resolve_by_*`) -/

/-- Python's builtin `max(xs, key=key)` on a non-empty list: left fold that
replaces the current best only on a strictly greater key (`ltb`), so the
first element attaining the maximal key wins. -/
def pyMaxBy {α β : Type} (ltb : β → β → Bool) (key : α → β) (x : α)
    (xs : List α) : α :=
  xs.foldl (fun best c => if ltb (key best) (key c) then c else best) x

/-- Lexicographic strict order on char lists (Python `str`'s `<` compares
code points left to right, shorter prefix first). -/
def charListLt : List Char → List Char → Bool
  | _, [] => false
  | [], _ :: _ => true
  | a :: as, b :: bs =>
    if a < b then true
    else if b < a then false
    else charListLt as bs

/-- Python `<` on strings: lexicographic by code point. -/
def strLtb (a b : String) : Bool := charListLt a.data b.data

/-- Python `<` on ints. -/
def intLtb (a b : Int) : Bool := decide (a < b)

/-- Python `<` on non-negative ints (measurement counts). -/
def natLtb (a b : Nat) : Bool := decide (a < b)

/-- Key used by `_resolve_by_timestamp`: `x.get('timestamp', '')`. -/
def tsKey (c : Conflict) : String := c.timestamp.getD ""

/-- `_apply_resolution`: the source only logs the resolution and returns
`True` (its `except` branch is unreachable). -/
def applyResolution : Bool := true

/-- `_resolve_by_timestamp`: `{}` on an empty conflicts list, otherwise the
result dict built from `max(conflicts, key=lambda x: x.get('timestamp', ''))`. -/
def resolveByTimestamp (conflicts : List Conflict) : Resolution :=
  match conflicts with
  | [] => .empty
  | c :: cs =>
    let latest := pyMaxBy strLtb tsKey c cs
    .latestVersion latest.version_id latest.timestamp applyResolution

/-- Key used by `_resolve_by_entropy`: `conflict.get('quantum_entropy', 0)`. -/
def entKey (c : Conflict) : Rat := c.quantum_entropy.getD 0

/-- The explicit loop of `_resolve_by_entropy`: starts from
`max_entropy = -1`, `selected = None` and replaces both on a strictly
greater entropy value. -/
def entropyScan (conflicts : List Conflict) : Rat × Option Conflict :=
  conflicts.foldl
    (fun acc c => if acc.1 < entKey c then (entKey c, some c) else acc)
    (-1, none)

/-- `_resolve_by_entropy`: `{}` on an empty list; otherwise runs the scan.
When no conflict has entropy above the initial `-1`, `selected` stays `None`
and the subsequent `selected.get('version_id')` raises `AttributeError`. -/
def resolveByEntropy (conflicts : List Conflict) : Except PyErr Resolution :=
  match conflicts with
  | [] => .ok .empty
  | _ =>
    let scan := entropyScan conflicts
    match scan.2 with
    | none => .error (.attributeError "NoneType object has no attribute get")
    | some c => .ok (.highestEntropy c.version_id scan.1 applyResolution)

/-- The synchronizer's static `network_priority` table, read with
`.get(..., 0)`. -/
def networkPriority (n : String) : Int :=
  if n = "divina_l3" then 3
  else if n = "novasanctum" then 2
  else if n = "whispurrnet" then 1
  else if n = "local" then 0
  else 0

/-- Key used by `_resolve_by_source_priority`:
`self.network_priority.get(x.get('source_network', ''), 0)`. -/
def prioKey (c : Conflict) : Int := networkPriority (c.source_network.getD "")

/-- `_resolve_by_source_priority`. -/
def resolveBySourcePriority (conflicts : List Conflict) : Resolution :=
  match conflicts with
  | [] => .empty
  | c :: cs =>
    let selected := pyMaxBy intLtb prioKey c cs
    .sourcePriority selected.version_id selected.source_network
      (prioKey selected) applyResolution

/-- One version's contribution to the field-union merge: append each of its
`data` bindings whose key is not yet present (`if k not in merged`). -/
def mergeData (merged : List (String × DVal)) (c : Conflict) :
    List (String × DVal) :=
  match c.data with
  | none => merged
  | some d =>
    d.foldl (fun m kv => if m.any (fun p => p.1 == kv.1) then m else m ++ [kv])
      merged

/-- Insertion into `sources = set()`: Python set membership; the set is
modelled by its support list in insertion order. -/
def setAdd (ss : List String) (s : String) :=
  if s ∈ ss then ss else ss ++ [s]

/-- The accumulation loop of `_resolve_by_merge`: for each conflict, record
`conflict.get('source_network', 'unknown')` in `sources`, then merge its
`data` fields first-seen-wins. -/
def mergeScan (conflicts : List Conflict) :
    List (String × DVal) × List String :=
  conflicts.foldl
    (fun acc c =>
      (mergeData acc.1 c, setAdd acc.2 (c.source_network.getD "unknown")))
    ([], [])

/-- `_resolve_by_merge`. -/
def resolveByMerge (conflicts : List Conflict) : Resolution :=
  match conflicts with
  | [] => .empty
  | _ =>
    let scan := mergeScan conflicts
    .merged scan.2 (scan.1.map Prod.fst) applyResolution

/-- First-binding lookup in a version's `data` association list
(`dict` access order). -/
def dataGet (d : List (String × DVal)) (k : String) : Option DVal :=
  (d.find? (fun p => p.1 == k)).map Prod.snd

/-- The value the spec's merge rule assigns to key `k`: the value bound to
`k` by the first version (in input order) whose `data` contains `k`. -/
def firstValueFor (k : String) : List Conflict → Option DVal
  | [] => none
  | c :: cs =>
    match dataGet (c.data.getD []) k with
    | some v => some v
    | none => firstValueFor k cs

/-! ## Sync orchestrator (quantum_sync.py `sync_memory` / `_push_sync` /
`_pull_sync` / `_bidirectional_sync`)

`network_manager.broadcast_memory` and `memory_processor.encode_memory` are
awaited collaborators; their outcomes are supplied as an oracle
(`SyncEnv`).  The run records, besides the returned value or the
propagating exception, the final `SyncOperation` and the ordered list of
statuses passed to `update_status` (the operation starts in `PENDING`, so
`PENDING :: trace` is the status history). -/

/-- Outcome of the awaited `broadcast_memory` call. -/
inductive BroadcastOutcome where
  | ok (network_results : List (String × RawResult))
  | raiseConflict (msg : String) (conflicts : List Conflict)
  | raiseError (msg : String)
  deriving DecidableEq, Repr

/-- Oracle for one `sync_memory` run. -/
structure SyncEnv where
  encode : Except String QuantumMemoryPattern
  broadcast : BroadcastOutcome
  deriving Repr

/-- The dict returned by `sync_memory`: `{'status': 'success', ...}` or
`{'status': 'resolved', ...}`. -/
inductive SyncResult where
  | success (operation_id : String) (results : List (String × NetResult))
  | resolved (operation_id : String) (strategy : String) (resolution : Resolution)
  deriving DecidableEq, Repr

/-- Observable outcome of one `sync_memory` run. -/
structure SyncRun where
  result : Except PyErr SyncResult
  op : Option SyncOperation
  trace : List SyncStatus
  deriving Repr

/-- Operation threaded through the run together with its status trace and
the clock. -/
structure OpState where
  op : SyncOperation
  trace : List SyncStatus
  tick : Nat
  deriving DecidableEq, Repr

/-- One `operation.update_status(...)` call inside the orchestrator. -/
def stepStatus (st : OpState) (s : SyncStatus)
    (md : Option (List (String × Value))) : OpState :=
  { op := st.op.update_status (st.tick + 1) s md
    trace := st.trace ++ [s]
    tick := st.tick + 1 }

/-- The result-normalization loop of `_push_sync`: a network whose raw
result has `status == 'success'` maps to `{'status': 'success'}`, anything
else to `{'status': 'error', 'error': result.get('error', 'Unknown error')}`. -/
def processResults (rs : List (String × RawResult)) :
    List (String × NetResult) :=
  rs.map (fun p =>
    (p.1,
     if p.2.status = "success" then NetResult.success
     else NetResult.error (p.2.error.getD "Unknown error")))

/-- `_push_sync`: marks the operation `IN_PROGRESS`, then awaits the
broadcast; a raised exception propagates to `sync_memory`. -/
def pushSyncCore (st : OpState) (env : SyncEnv) :
    Except PyErr (List (String × NetResult)) × OpState :=
  let st1 := stepStatus st .IN_PROGRESS none
  match env.broadcast with
  | .ok rs => (.ok (processResults rs), st1)
  | .raiseConflict m cs => (.error (.syncConflict m cs), st1)
  | .raiseError m => (.error (.exception m), st1)

/-- Membership test `conflict_resolution in self.conflict_resolution_strategies`. -/
def knownResolution (name : String) : Bool :=
  name = "timestamp" ∨ name = "entropy" ∨ name = "source_priority" ∨
    name = "merge"

/-- Dispatch to the strategy stored under `name` (callers guard with
`knownResolution`, so the final branch is the `merge` entry). -/
def runResolver (name : String) (cs : List Conflict) :
    Except PyErr Resolution :=
  if name = "timestamp" then .ok (resolveByTimestamp cs)
  else if name = "entropy" then resolveByEntropy cs
  else if name = "source_priority" then .ok (resolveBySourcePriority cs)
  else .ok (resolveByMerge cs)

/-- The `except SyncConflict` handler of `sync_memory`: mark `CONFLICT`,
then either resolve (→ `COMPLETED`, `'resolved'` result) or mark `FAILED`
and re-raise (the resolver's own exception, or the original `SyncConflict`
when the requested strategy is unknown). -/
def handleConflict (opId conflictResolution : String) (st1 : OpState)
    (msg : String) (cs : List Conflict) : SyncRun :=
  let st2 := stepStatus st1 .CONFLICT (some [("conflicts", .vconflicts cs)])
  if knownResolution conflictResolution then
    match runResolver conflictResolution cs with
    | .ok r =>
      let st3 := stepStatus st2 .COMPLETED
        (some [("resolved", .vbool true),
               ("resolution_strategy", .vstr conflictResolution),
               ("resolution", .vresolution r)])
      { result := .ok (.resolved opId conflictResolution r)
        op := some st3.op, trace := st3.trace }
    | .error re =>
      let st3 := stepStatus st2 .FAILED
        (some [("error", .vstr re.msgOf), ("conflicts", .vconflicts cs)])
      { result := .error re, op := some st3.op, trace := st3.trace }
  else
    let st3 := stepStatus st2 .FAILED
      (some [("error", .vstr "Conflict resolution failed"),
             ("conflicts", .vconflicts cs)])
    { result := .error (.syncConflict msg cs)
      op := some st3.op, trace := st3.trace }

/-- The `except Exception` handler of `sync_memory`: mark `FAILED` with the
stringified error and re-raise. -/
def handleError (st1 : OpState) (e : PyErr) : SyncRun :=
  let st2 := stepStatus st1 .FAILED (some [("error", .vstr e.msgOf)])
  { result := .error e, op := some st2.op, trace := st2.trace }

/-- `sync_memory`.  `opId` stands for `_generate_operation_id(...)` (a SHA-256
over the serialized memory, the networks and the wall-clock timestamp, hence
an oracle here), `t0` for the creation time, `kwargs` for the extra keyword
options merged into the initial metadata. -/
def sync_memory (opId : String) (targetNetworks : List String)
    (sourceNetwork : String) (syncStrategy : String)
    (conflictResolution : String) (timeout : Rat)
    (kwargs : List (String × Value)) (t0 : Nat) (env : SyncEnv) : SyncRun :=
  match env.encode with
  | .error msg =>
    -- `encode_memory` is awaited before the try block: the exception
    -- propagates and no operation is created or registered.
    { result := .error (.exception msg), op := none, trace := [] }
  | .ok pattern =>
    let op0 : SyncOperation :=
      { operation_id := opId
        source_network := sourceNetwork
        target_networks := targetNetworks.filter (fun n => n ≠ sourceNetwork)
        memory_pattern := pattern
        status := .PENDING
        created_at := t0
        updated_at := t0
        metadata := dictUpdate
          [("sync_strategy", .vstr syncStrategy),
           ("conflict_resolution", .vstr conflictResolution),
           ("timeout", .vnum timeout)] kwargs }
    let st0 : OpState := { op := op0, trace := [], tick := t0 }
    if syncStrategy = "push" then
      match pushSyncCore st0 env with
      | (.ok results, st1) =>
        let st2 := stepStatus st1 .COMPLETED
          (some [("results", .vnetresults results)])
        { result := .ok (.success opId results)
          op := some st2.op, trace := st2.trace }
      | (.error (.syncConflict m cs), st1) =>
        handleConflict opId conflictResolution st1 m cs
      | (.error e, st1) => handleError st1 e
    else if syncStrategy = "pull" then
      -- `_pull_sync` marks IN_PROGRESS then raises NotImplementedError.
      let st1 := stepStatus st0 .IN_PROGRESS none
      handleError st1 (.notImplementedError "Pull sync not yet implemented")
    else if syncStrategy = "bidirectional" then
      -- `_bidirectional_sync` runs the push, then the pull (which raises).
      match pushSyncCore st0 env with
      | (.ok _, st1) =>
        let st2 := stepStatus st1 .IN_PROGRESS none
        handleError st2 (.notImplementedError "Pull sync not yet implemented")
      | (.error (.syncConflict m cs), st1) =>
        handleConflict opId conflictResolution st1 m cs
      | (.error e, st1) => handleError st1 e
    else
      let st1 := stepStatus st0 .FAILED
        (some [("error", .vstr ("Unknown sync strategy: " ++ syncStrategy))])
      { result := .error (.valueError ("Unknown sync strategy: " ++ syncStrategy))
        op := some st1.op, trace := st1.trace }

/-! ## SHA-256 (`hashlib.sha256`)

Pure Nat model of FIPS 180-4, words as `Nat` reduced mod `2^32`.  Only used
for `pattern_id = hashlib.sha256(most_probable.encode()).hexdigest()`. -/

/-- Truncate to a 32-bit word. -/
def w32 (n : Nat) : Nat := n % 4294967296

/-- 32-bit right rotation (operands are already < 2^32). -/
def rotr32 (x n : Nat) : Nat := w32 (x >>> n ||| x <<< (32 - n))

/-- 32-bit bitwise complement. -/
def bnot32 (x : Nat) : Nat := x ^^^ 4294967295

/-- XOR of three words. -/
def xor3 (a b c : Nat) : Nat := a ^^^ (b ^^^ c)

def shaCh (e : Nat) (f g : Nat) : Nat := (e &&& f) ^^^ ((bnot32 e) &&& g)

def shaMaj (a b c : Nat) : Nat := xor3 (a &&& b) (a &&& c) (b &&& c)

def bigSigma0 (x : Nat) : Nat := xor3 (rotr32 x 2) (rotr32 x 13) (rotr32 x 22)

def bigSigma1 (x : Nat) : Nat := xor3 (rotr32 x 6) (rotr32 x 11) (rotr32 x 25)

def smallSigma0 (x : Nat) : Nat := xor3 (rotr32 x 7) (rotr32 x 18) (x >>> 3)

def smallSigma1 (x : Nat) : Nat := xor3 (rotr32 x 17) (rotr32 x 19) (x >>> 10)

/-- The 64 SHA-256 round constants `K₀…K₆₃`, packed big-endian into one
2048-bit literal (word `i` occupies bits `[32*(63-i), 32*(64-i))`). -/
def sha256Kpacked : Nat :=
  0x428a2f9871374491b5c0fbcfe9b5dba53956c25b59f111f1923f82a4ab1c5ed5d807aa9812835b01243185be550c7dc372be5d7480deb1fe9bdc06a7c19bf174e49b69c1efbe47860fc19dc6240ca1cc2de92c6f4a7484aa5cb0a9dc76f988da983e5152a831c66db00327c8bf597fc7c6e00bf3d5a7914706ca63511429296727b70a852e1b21384d2c6dfc53380d13650a7354766a0abb81c2c92e92722c85a2bfe8a1a81a664bc24b8b70c76c51a3d192e819d6990624f40e3585106aa07019a4c1161e376c082748774c34b0bcb5391c0cb34ed8aa4a5b9cca4f682e6ff3748f82ee78a5636f84c878148cc7020890befffaa4506cebbef9a3f7c67178f2

/-- The 64 SHA-256 round constants as a list of 32-bit words. -/
def sha256K : List Nat :=
  (List.range 64).map (fun i => w32 (sha256Kpacked >>> (32 * (63 - i))))

/-- Working variables of the compression function. -/
structure Hash8 where
  a : Nat
  b : Nat
  c : Nat
  d : Nat
  e : Nat
  f : Nat
  g : Nat
  hh : Nat
  deriving DecidableEq, Repr

/-- The eight initial hash words `H₀…H₇`, packed big-endian into one
256-bit literal. -/
def sha256IVpacked : Nat :=
  0x6a09e667bb67ae853c6ef372a54ff53a510e527f9b05688c1f83d9ab5be0cd19

/-- Word `i` of the initial hash value. -/
def ivWord (i : Nat) : Nat := w32 (sha256IVpacked >>> (32 * (7 - i)))

/-- Initial hash value. -/
def sha256IV : Hash8 :=
  { a := ivWord 0, b := ivWord 1, c := ivWord 2, d := ivWord 3,
    e := ivWord 4, f := ivWord 5, g := ivWord 6, hh := ivWord 7 }

/-- SHA-256 padding: append `0x80`, zero bytes, and the 64-bit big-endian
bit length, reaching a multiple of 64 bytes. -/
def sha256pad (msg : List Nat) : List Nat :=
  let len := msg.length
  let zeros := (64 - ((len + 9) % 64)) % 64
  msg ++ [0x80] ++ List.replicate zeros 0 ++
    (List.range 8).map (fun i => ((len * 8) >>> (8 * (7 - i))) % 256)

/-- Group 4 big-endian bytes into one 32-bit word. -/
def toWords : List Nat → List Nat
  | a :: b :: c :: d :: rest => (((a * 256 + b) * 256 + c) * 256 + d) :: toWords rest
  | _ => []

/-- One message-schedule extension step over the reversed word list. -/
def schedStep (ws : List Nat) : List Nat :=
  w32 (smallSigma1 (ws.getD 1 0) + ws.getD 6 0 +
       smallSigma0 (ws.getD 14 0) + ws.getD 15 0) :: ws

/-- The 64-entry message schedule of one block (16 words in). -/
def sha256Schedule (block : List Nat) : List Nat :=
  ((List.range 48).foldl (fun ws _ => schedStep ws) block.reverse).reverse

/-- One round of the compression function. -/
def compressStep (st : Hash8) (kw : Nat × Nat) : Hash8 :=
  let t1 := w32 (st.hh + bigSigma1 st.e + shaCh st.e st.f st.g + kw.1 + kw.2)
  let t2 := w32 (bigSigma0 st.a + shaMaj st.a st.b st.c)
  { a := w32 (t1 + t2), b := st.a, c := st.b, d := st.c,
    e := w32 (st.d + t1), f := st.e, g := st.f, hh := st.g }

/-- Process one 64-byte block. -/
def sha256Block (st : Hash8) (block : List Nat) : Hash8 :=
  let ws := sha256Schedule (toWords block)
  let r := (sha256K.zip ws).foldl compressStep st
  { a := w32 (st.a + r.a), b := w32 (st.b + r.b), c := w32 (st.c + r.c),
    d := w32 (st.d + r.d), e := w32 (st.e + r.e), f := w32 (st.f + r.f),
    g := w32 (st.g + r.g), hh := w32 (st.hh + r.hh) }

/-- Digest of a byte list, as the eight final hash words. -/
def sha256Words (msg : List Nat) : Hash8 :=
  ((sha256pad msg).toChunks 64).foldl sha256Block sha256IV

/-- Lowercase hex rendering of one 32-bit word, zero-padded to 8 digits. -/
def hex8 (n : Nat) : String :=
  let ds := Nat.toDigits 16 n
  String.mk (List.replicate (8 - ds.length) '0' ++ ds)

/-- `hashlib.sha256(bytes).hexdigest()`. -/
def sha256hex (msg : List Nat) : String :=
  let st := sha256Words msg
  hex8 st.a ++ hex8 st.b ++ hex8 st.c ++ hex8 st.d ++
    hex8 st.e ++ hex8 st.f ++ hex8 st.g ++ hex8 st.hh

/-- UTF-8 bytes of an ASCII string (every string hashed by the code is a
measurement bit string, hence ASCII, where UTF-8 is the code point). -/
def strBytes (s : String) : List Nat := s.data.map Char.toNat

/-- `hashlib.sha256(s.encode()).hexdigest()`. -/
def sha256HexOfString (s : String) : String := sha256hex (strBytes s)

/-! ## Memory encoder (quantum_memory.py `encode_memory`)

The deterministic front end (serialization is taken as the input string,
per-character 8-bit big-endian binary expansion, qubit-count loop,
truncation and padding) is embedded directly.  The back end simulates a
quantum circuit and samples it with `execute(qc, backend, shots=1024)`
without a fixed seed; the sampled `counts` dictionary and the computed
entanglement entropy are therefore oracle inputs. -/

/-- `format(ord(c), '08b')`: big-endian bits, zero-padded to width ≥ 8. -/
def charBits (c : Char) : List Bool :=
  let bs := (Nat.toDigits 2 c.toNat).map (fun d => d == '1')
  List.replicate (8 - bs.length) false ++ bs

/-- The `while (2 ** n_qubits) < len: n_qubits += 1; if n_qubits > 20: ...`
loop; the fuel (21) covers every reachable iteration count. -/
def nQubitsLoop (len : Nat) : Nat → Nat → Nat
  | 0, n => n
  | fuel + 1, n =>
    if 2 ^ n < len then
      if n + 1 > 20 then 20 else nQubitsLoop len fuel (n + 1)
    else n

/-- Number of qubits chosen for a binary string of length `len`. -/
def encodeNQubits (len : Nat) : Nat := nQubitsLoop len 21 1

/-- `max(counts.items(), key=lambda x: x[1])[0]`: first key attaining the
maximal count (`none` models the `ValueError` of `max` on an empty dict). -/
def mostProbable : List (String × Nat) → Option String
  | [] => none
  | kv :: rest => some (pyMaxBy natLtb Prod.snd kv rest).1

/-- `encode_memory`, with `memoryStr` the serialized record
(`json.dumps(memory, sort_keys=True)`) and the sampled `counts` and the
entropy value as oracles. -/
def encode_memory (memoryStr : String) (counts : List (String × Nat))
    (entropyVal : Rat) : Except String QuantumMemoryPattern :=
  let binary := (memoryStr.data.map charBits).flatten
  let nq := encodeNQubits binary.length
  let binary1 := if 2 ^ 20 < binary.length then binary.take (2 ^ 20) else binary
  let padded := binary1 ++ List.replicate (2 ^ nq - binary1.length) false
  match mostProbable counts with
  | none => .error "max arg is an empty sequence"
  | some mp =>
    .ok { pattern_id := sha256HexOfString mp
          qubits := nq
          state := mp
          entanglement_entropy := entropyVal
          original_memory := memoryStr
          binary_encoding := padded
          measurement_counts := counts }

/-! ## Pattern similarity (quantum_memory.py `find_similar_patterns`) -/

/-- `Statevector.from_label(a).equiv(Statevector.from_label(b))`:
`from_label` is injective on measurement bit-string labels, labels of
different lengths give states of different dimension, and two distinct
computational-basis states are never equal up to a global phase — so the
`equiv` check is exactly label equality. -/
def statevectorEquiv (a b : String) : Bool := a == b

/-- `fidelity = abs(target_state.equiv(candidate_state))`: Python `abs` of
the boolean, i.e. `1` for equivalent states and `0` otherwise. -/
def patternFidelity (a b : String) : Rat :=
  if statevectorEquiv a b then 1 else 0

/-- `find_similar_patterns`: skip the query's own id, keep candidates whose
fidelity reaches the threshold, and stable-sort by descending fidelity
(`similar.sort(key=..., reverse=True)`). -/
def find_similar_patterns (registry : List (String × QuantumMemoryPattern))
    (p : QuantumMemoryPattern) (threshold : Rat) : List QuantumMemoryPattern :=
  let similar := registry.filter
    (fun q => !(q.1 == p.pattern_id) &&
      decide (threshold ≤ patternFidelity p.state q.2.state))
  ((similar.map Prod.snd).mergeSort
    (fun x y => decide (patternFidelity p.state y.state ≤
      patternFidelity p.state x.state)))

/-! ## Operation registry (quantum_network.py `cancel_sync_operation`) -/

/-- `operation_id in self.sync_operations` / `self.sync_operations[oid]`. -/
def findOp (ops : List (String × SyncOperation)) (oid : String) :
    Option SyncOperation :=
  (ops.find? (fun p => p.1 == oid)).map Prod.snd

/-- `cancel_sync_operation`: cancellable exactly while the stored operation
is `PENDING` or `IN_PROGRESS`; the in-place mutation of the stored object is
modelled by rebinding its registry entry. -/
def cancel_sync_operation (ops : List (String × SyncOperation))
    (oid : String) (now : Nat) : Bool × List (String × SyncOperation) :=
  match findOp ops oid with
  | some op =>
    if op.status = .PENDING ∨ op.status = .IN_PROGRESS then
      (true,
       ops.map (fun p =>
         if p.1 == oid then
           (p.1, p.2.update_status now .FAILED (some [("cancelled", .vbool true)]))
         else p))
    else (false, ops)
  | none => (false, ops)

/-! ## Views and comparison definitions used by the claims -/

/-- Status of the run's operation (`None` when no operation was created). -/
def SyncRun.finalStatus (r : SyncRun) : Option SyncStatus :=
  r.op.map (fun o => o.status)

/-- `pattern_id` of an encoder outcome. -/
def patternIdOf : Except String QuantumMemoryPattern → Option String
  | .ok p => some p.pattern_id
  | .error _ => none

/-- Modelled from the spec (refinement comparison only, not from the
source): the final status §4.5 prescribes for a push once per-target results
are collected — `COMPLETED` iff at least one target succeeded. -/
def specPushStatus (results : List (String × NetResult)) : SyncStatus :=
  if results.any (fun p => p.2 == NetResult.success) then .COMPLETED
  else .FAILED

/-- `m` is the first element of `l` attaining the maximal key: it is in `l`,
its key dominates every key in `l`, and every element preceding it has a
strictly smaller key. -/
def IsFirstMaxBy {α β : Type} [LinearOrder β] (key : α → β) (l : List α)
    (m : α) : Prop :=
  m ∈ l ∧ (∀ c ∈ l, key c ≤ key m) ∧
    ∃ l₁ l₂, l = l₁ ++ m :: l₂ ∧ ∀ c ∈ l₁, key c < key m

/-- An arbitrary encoded pattern used as oracle output in concrete runs. -/
def patternEx : QuantumMemoryPattern :=
  { pattern_id := "p0", qubits := 1, state := "0",
    entanglement_entropy := 0, original_memory := "\x7b\x7d",
    binary_encoding := [], measurement_counts := [("0", 1024)] }

/-- `json.dumps({"content": "hello"}, sort_keys=True)` (Scenario A record). -/
def jsonHello : String := "\x7b\"content\": \"hello\"\x7d"

/-- A concrete operation instantiating the frame and cancellation claims. -/
def opEx : SyncOperation :=
  { operation_id := "op_1", source_network := "local",
    target_networks := ["divina_l3"], memory_pattern := patternEx,
    status := .PENDING, created_at := 0, updated_at := 0,
    metadata := [("a", .vnum 1)] }

/-! # Theorems -/

/-! ### Dictionary lemmas -/

theorem find?_map_overwrite (d : List (String × Value)) (k : String) (v : Value)
    (hany : d.any (fun p => p.1 == k) = true) :
    (d.map (fun p => if p.1 == k then (k, v) else p)).find?
      (fun p => p.1 == k) = some (k, v) := by
  induction d with
  | nil => simp at hany
  | cons p t ih =>
    rw [List.map_cons, List.find?_cons]
    by_cases hp : (p.1 == k) = true
    · rw [if_pos hp]
      simp
    · have hp2 : (p.1 == k) = false := by simpa using hp
      rw [if_neg hp]
      simp only [hp2]
      simp only [List.any_cons, hp2, Bool.false_or] at hany
      exact ih hany

theorem find?_map_overwrite_ne (d : List (String × Value)) (k : String)
    (v : Value) (k2 : String) (h : k2 ≠ k) :
    (d.map (fun p => if p.1 == k then (k, v) else p)).find?
      (fun p => p.1 == k2) = d.find? (fun p => p.1 == k2) := by
  induction d with
  | nil => rfl
  | cons p t ih =>
    rw [List.map_cons]
    rw [List.find?_cons, List.find?_cons]
    by_cases hp : (p.1 == k) = true
    · have hpk : p.1 = k := by simpa using hp
      have h1 : (k == k2) = false := beq_eq_false_iff_ne.mpr (Ne.symm h)
      have h2 : (p.1 == k2) = false := by rw [hpk]; exact h1
      rw [if_pos hp]
      simp only [h1, h2]
      exact ih
    · rw [if_neg hp]
      by_cases hq : (p.1 == k2) = true
      · simp only [hq]
      · have hq2 : (p.1 == k2) = false := by simpa using hq
        simp only [hq2]
        exact ih

theorem dictGet_dictSet_self (d : List (String × Value)) (k : String)
    (v : Value) : dictGet (dictSet d k v) k = some v := by
  unfold dictGet dictSet
  by_cases h : d.any (fun p => p.1 == k) = true
  · rw [if_pos h, find?_map_overwrite d k v h]; rfl
  · rw [if_neg h, List.find?_append]
    have hnone : d.find? (fun p => p.1 == k) = none := by
      rw [List.find?_eq_none]
      intro x hx hpx
      exact h (List.any_eq_true.mpr ⟨x, hx, hpx⟩)
    simp [hnone, List.find?_cons]

theorem dictGet_dictSet_ne (d : List (String × Value)) (k : String)
    (v : Value) (k2 : String) (h : k2 ≠ k) :
    dictGet (dictSet d k v) k2 = dictGet d k2 := by
  unfold dictGet dictSet
  by_cases hany : d.any (fun p => p.1 == k) = true
  · rw [if_pos hany, find?_map_overwrite_ne d k v k2 h]
  · rw [if_neg hany, List.find?_append]
    have hone : ([((k, v) : String × Value)].find? (fun p => p.1 == k2)) = none := by
      simp [List.find?_cons, beq_eq_false_iff_ne.mpr (Ne.symm h)]
    rw [hone]
    cases d.find? (fun p => p.1 == k2) <;> rfl

theorem dictGet_dictUpdate_not_mem :
    ∀ (u d : List (String × Value)) (k : String),
      u.find? (fun p => p.1 == k) = none →
      dictGet (dictUpdate d u) k = dictGet d k := by
  intro u
  induction u with
  | nil => intro d k _; rfl
  | cons p t ih =>
    intro d k h
    obtain ⟨k1, v1⟩ := p
    rw [List.find?_cons] at h
    by_cases hp : (k1 == k) = true
    · simp [hp] at h
    · simp only [hp] at h
      show dictGet (dictUpdate (dictSet d k1 v1) t) k = dictGet d k
      rw [ih _ _ h, dictGet_dictSet_ne _ _ _ _ (Ne.symm (ne_of_beq_false (by simpa using hp)))]

/-! ### C10 — frame property of `SyncOperation.update_status` -/

/-- C10: a call to `update_status` changes only `status`, `updated_at` and
`metadata`; `operation_id`, `source_network`, `target_networks`,
`memory_pattern` and `created_at` are unchanged, and the metadata argument
is merged key-by-key: every existing metadata entry whose key is absent
from the update keeps its value. -/
theorem update_status_frame (op : SyncOperation) (now : Nat) (s : SyncStatus)
    (md : Option (List (String × Value))) :
    (op.update_status now s md).operation_id = op.operation_id ∧
    (op.update_status now s md).source_network = op.source_network ∧
    (op.update_status now s md).target_networks = op.target_networks ∧
    (op.update_status now s md).memory_pattern = op.memory_pattern ∧
    (op.update_status now s md).created_at = op.created_at ∧
    (op.update_status now s md).status = s ∧
    ∀ k, (∀ u, md = some u → u.find? (fun p => p.1 == k) = none) →
      dictGet (op.update_status now s md).metadata k = dictGet op.metadata k := by
  refine ⟨rfl, rfl, rfl, rfl, rfl, rfl, ?_⟩
  intro k hk
  cases md with
  | none => rfl
  | some u =>
    show dictGet (if u.isEmpty then op.metadata else dictUpdate op.metadata u) k = _
    split
    · rfl
    · exact dictGet_dictUpdate_not_mem u op.metadata k (hk u rfl)

/-- C10 witness: concrete instantiation — updating `opEx` with a `"b"`
entry preserves its `"a"` entry and the identifying fields. -/
theorem update_status_frame_witness :
    (opEx.update_status 5 .COMPLETED (some [("b", .vbool true)])).operation_id
        = opEx.operation_id ∧
    dictGet (opEx.update_status 5 .COMPLETED
        (some [("b", .vbool true)])).metadata "a" = dictGet opEx.metadata "a" := by
  have h := update_status_frame opEx 5 .COMPLETED (some [("b", .vbool true)])
  exact ⟨h.1, h.2.2.2.2.2.2 "a" (by intro u hu; cases hu; rfl)⟩

/-! ### C9 — similarity metric symmetry and reflexivity -/

/-- C9: the similarity metric of the pattern store's search
(`abs(a.equiv(b))` over statevectors built from pattern state labels) is
symmetric, and reflexive with value 1. -/
theorem patternFidelity_symm_refl :
    (∀ a b, patternFidelity a b = patternFidelity b a) ∧
    (∀ p, patternFidelity p p = 1) := by
  constructor
  · intro a b
    by_cases h : a = b
    · subst h; rfl
    · have h1 : (a == b) = false := beq_eq_false_iff_ne.mpr h
      have h2 : (b == a) = false := beq_eq_false_iff_ne.mpr (Ne.symm h)
      simp [patternFidelity, statevectorEquiv, h1, h2]
  · intro p; simp [patternFidelity, statevectorEquiv]

/-! ### C8 — cancellation -/

theorem findOp_map_update (ops : List (String × SyncOperation)) (oid : String)
    (g : SyncOperation → SyncOperation) :
    findOp (ops.map (fun p => if p.1 == oid then (p.1, g p.2) else p)) oid
      = (findOp ops oid).map g := by
  induction ops with
  | nil => rfl
  | cons p t ih =>
    unfold findOp at ih ⊢
    rw [List.map_cons, List.find?_cons, List.find?_cons]
    by_cases hp : (p.1 == oid) = true
    · rw [if_pos hp]
      simp only [hp]
      rfl
    · have hp2 : (p.1 == oid) = false := by simpa using hp
      rw [if_neg hp]
      simp only [hp2]
      exact ih

/-- C8: `cancel_sync_operation` returns `true` — and then the stored
operation is re-bound to status `FAILED` with metadata entry
`cancelled = True` — exactly when the operation exists with status
`PENDING` or `IN_PROGRESS`; in every other case it returns `false` and the
registry (hence every stored status and metadata dict) is unchanged. -/
theorem cancel_sync_operation_spec (ops : List (String × SyncOperation))
    (oid : String) (now : Nat) :
    ((cancel_sync_operation ops oid now).1 = true ↔
      ∃ op, findOp ops oid = some op ∧
        (op.status = .PENDING ∨ op.status = .IN_PROGRESS)) ∧
    (∀ op, findOp ops oid = some op →
      (op.status = .PENDING ∨ op.status = .IN_PROGRESS) →
      ∃ op2, findOp (cancel_sync_operation ops oid now).2 oid = some op2 ∧
        op2.status = .FAILED ∧
        dictGet op2.metadata "cancelled" = some (.vbool true)) ∧
    ((cancel_sync_operation ops oid now).1 = false →
      (cancel_sync_operation ops oid now).2 = ops) := by
  cases hfind : findOp ops oid with
  | none =>
    have hc : cancel_sync_operation ops oid now = (false, ops) := by
      unfold cancel_sync_operation; rw [hfind]
    rw [hc]
    refine ⟨?_, ?_, ?_⟩
    · constructor
      · intro hfalse; cases hfalse
      · rintro ⟨op, hop, _⟩; cases hop
    · intro op hop; cases hop
    · intro _; rfl
  | some op =>
    have hc : cancel_sync_operation ops oid now =
        if op.status = .PENDING ∨ op.status = .IN_PROGRESS then
          (true,
           ops.map (fun p =>
             if p.1 == oid then
               (p.1, p.2.update_status now .FAILED
                 (some [("cancelled", .vbool true)]))
             else p))
        else (false, ops) := by
      unfold cancel_sync_operation; rw [hfind]
    by_cases hst : op.status = .PENDING ∨ op.status = .IN_PROGRESS
    · rw [if_pos hst] at hc
      rw [hc]
      refine ⟨?_, ?_, ?_⟩
      · exact ⟨fun _ => ⟨op, rfl, hst⟩, fun _ => rfl⟩
      · intro op9 hop9 _
        cases hop9
        refine ⟨op.update_status now .FAILED (some [("cancelled", .vbool true)]),
          ?_, rfl, ?_⟩
        · show findOp (ops.map _) oid = _
          rw [findOp_map_update ops oid
            (fun o => o.update_status now .FAILED (some [("cancelled", .vbool true)])),
            hfind]
          rfl
        · show dictGet (op.update_status now .FAILED
            (some [("cancelled", .vbool true)])).metadata "cancelled" = _
          show dictGet (dictUpdate op.metadata [("cancelled", .vbool true)]) "cancelled" = _
          show dictGet (dictSet op.metadata "cancelled" (.vbool true)) "cancelled" = _
          exact dictGet_dictSet_self _ _ _
      · intro hfalse; cases hfalse
    · rw [if_neg hst] at hc
      rw [hc]
      refine ⟨?_, ?_, ?_⟩
      · constructor
        · intro hfalse; cases hfalse
        · rintro ⟨op9, hop9, hst9⟩
          cases hop9
          exact absurd hst9 hst
      · intro op9 hop9 hst9
        cases hop9
        exact absurd hst9 hst
      · intro _; rfl

/-- C8 witness: cancelling the pending `opEx` stored under `"op_1"`
succeeds and re-binds it FAILED with `cancelled = True`. -/
theorem cancel_sync_operation_witness :
    ∃ op2, findOp (cancel_sync_operation [("op_1", opEx)] "op_1" 7).2 "op_1"
        = some op2 ∧ op2.status = .FAILED ∧
      dictGet op2.metadata "cancelled" = some (.vbool true) :=
  (cancel_sync_operation_spec [("op_1", opEx)] "op_1" 7).2.1 opEx rfl (Or.inl rfl)

/-! ### First-max characterization of Python `max` and of the entropy scan -/

theorem charListLt_iff : ∀ (as bs : List Char), charListLt as bs = true ↔ as < bs
  | [], [] => by
    constructor
    · intro h; simp [charListLt] at h
    · intro h; cases h
  | [], b :: bs => by
    constructor
    · intro _; exact List.Lex.nil
    · intro _; rfl
  | a :: as, [] => by
    constructor
    · intro h; simp [charListLt] at h
    · intro h; cases h
  | a :: as, b :: bs => by
    unfold charListLt
    by_cases hab : a < b
    · rw [if_pos hab]
      constructor
      · intro _; exact List.Lex.rel hab
      · intro _; rfl
    · rw [if_neg hab]
      by_cases hba : b < a
      · rw [if_pos hba]
        constructor
        · intro h; cases h
        · intro h
          cases h with
          | cons h1 => exact absurd hba (lt_irrefl _)
          | rel h1 => exact absurd h1 hab
      · rw [if_neg hba]
        rw [charListLt_iff as bs]
        have hone : a = b := le_antisymm (not_lt.mp hba) (not_lt.mp hab)
        subst hone
        constructor
        · intro h; exact List.Lex.cons h
        · intro h
          cases h with
          | cons h1 => exact h1
          | rel h1 => exact absurd h1 hab

theorem strLtb_iff (a b : String) : strLtb a b = true ↔ a < b := by
  rw [String.lt_iff_toList_lt]
  exact charListLt_iff a.data b.data

theorem intLtb_iff (a b : Int) : intLtb a b = true ↔ a < b := by
  simp [intLtb]

theorem pyMaxBy_isFirstMax {α β : Type} [LinearOrder β] (ltb : β → β → Bool)
    (hltb : ∀ a b, ltb a b = true ↔ a < b) (key : α → β) :
    ∀ (xs : List α) (x : α), IsFirstMaxBy key (x :: xs) (pyMaxBy ltb key x xs) := by
  intro xs
  induction xs with
  | nil =>
    intro x
    refine ⟨List.mem_singleton.mpr rfl, ?_, [], [], rfl, ?_⟩
    · intro c hc
      rw [List.mem_singleton.mp hc]
      exact le_refl _
    · intro c hc; cases hc
  | cons c t ih =>
    intro x
    have hstep : pyMaxBy ltb key x (c :: t) =
        pyMaxBy ltb key (if ltb (key x) (key c) then c else x) t := by
      unfold pyMaxBy
      rw [List.foldl_cons]
    by_cases h : key x < key c
    · rw [hstep, if_pos ((hltb _ _).mpr h)]
      obtain ⟨hmem, hbound, l₁, l₂, hsplit, hpre⟩ := ih c
      have hkc : key c ≤ key (pyMaxBy ltb key c t) :=
        hbound c (List.mem_cons_self c t)
      refine ⟨List.mem_cons_of_mem x hmem, ?_, x :: l₁, l₂, ?_, ?_⟩
      · intro d hd
        rcases List.mem_cons.mp hd with hdx | hdm
        · rw [hdx]; exact le_of_lt (lt_of_lt_of_le h hkc)
        · exact hbound d hdm
      · rw [List.cons_append, ← hsplit]
      · intro d hd
        rcases List.mem_cons.mp hd with hdx | hdm
        · rw [hdx]; exact lt_of_lt_of_le h hkc
        · exact hpre d hdm
    · rw [hstep, if_neg (fun hc => h ((hltb _ _).mp hc))]
      obtain ⟨hmem, hbound, l₁, l₂, hsplit, hpre⟩ := ih x
      have hcx : key c ≤ key x := not_lt.mp h
      have hxm : key x ≤ key (pyMaxBy ltb key x t) :=
        hbound x (List.mem_cons_self x t)
      refine ⟨?_, ?_, ?_⟩
      · rcases List.mem_cons.mp hmem with hmx | hmt
        · rw [hmx]; exact List.mem_cons_self x (c :: t)
        · exact List.mem_cons_of_mem x (List.mem_cons_of_mem c hmt)
      · intro d hd
        rcases List.mem_cons.mp hd with hdx | hd2
        · rw [hdx]; exact hxm
        · rcases List.mem_cons.mp hd2 with hdc | hdt
          · rw [hdc]; exact le_trans hcx hxm
          · exact hbound d (List.mem_cons_of_mem x hdt)
      · cases l₁ with
        | nil =>
          rw [List.nil_append] at hsplit
          have hxeq : x = pyMaxBy ltb key x t := ((List.cons.injEq _ _ _ _).mp hsplit).1
          refine ⟨[], c :: t, ?_, ?_⟩
          · rw [List.nil_append, ← hxeq]
          · intro d hd; cases hd
        | cons a l₁r =>
          rw [List.cons_append] at hsplit
          have hxa : x = a := ((List.cons.injEq _ _ _ _).mp hsplit).1
          have hteq : t = l₁r ++ pyMaxBy ltb key x t :: l₂ :=
            ((List.cons.injEq _ _ _ _).mp hsplit).2
          have hxlt : key x < key (pyMaxBy ltb key x t) := by
            have := hpre a (List.mem_cons_self a l₁r)
            rwa [← hxa] at this
          refine ⟨x :: c :: l₁r, l₂, ?_, ?_⟩
          · rw [List.cons_append, List.cons_append, ← hteq]
          · intro d hd
            rcases List.mem_cons.mp hd with hdx | hd2
            · rw [hdx]; exact hxlt
            · rcases List.mem_cons.mp hd2 with hdc | hdt
              · rw [hdc]; exact lt_of_le_of_lt hcx hxlt
              · exact hpre d (List.mem_cons_of_mem a hdt)

theorem entropyFold_spec :
    ∀ (l : List Conflict) (m : Rat) (sel : Option Conflict),
      ((∀ c ∈ l, entKey c ≤ m) ∧
        l.foldl (fun acc c => if acc.1 < entKey c then (entKey c, some c) else acc)
          (m, sel) = (m, sel)) ∨
      (∃ s l₁ l₂, l = l₁ ++ s :: l₂ ∧ m < entKey s ∧
        (∀ c ∈ l, entKey c ≤ entKey s) ∧ (∀ c ∈ l₁, entKey c < entKey s) ∧
        l.foldl (fun acc c => if acc.1 < entKey c then (entKey c, some c) else acc)
          (m, sel) = (entKey s, some s)) := by
  intro l
  induction l with
  | nil =>
    intro m sel
    exact Or.inl ⟨fun c hc => absurd hc (List.not_mem_nil c), rfl⟩
  | cons c t ih =>
    intro m sel
    rw [List.foldl_cons]
    by_cases h : m < entKey c
    · rw [if_pos h]
      rcases ih (entKey c) (some c) with ⟨hb, heq⟩ |
        ⟨s, l₁, l₂, hsplit, hm, hbound, hpre, heq⟩
      · refine Or.inr ⟨c, [], t, rfl, h, ?_, ?_, heq⟩
        · intro d hd
          rcases List.mem_cons.mp hd with hdc | hdt
          · rw [hdc]
          · exact hb d hdt
        · intro d hd; cases hd
      · refine Or.inr ⟨s, c :: l₁, l₂, ?_, lt_trans h hm, ?_, ?_, heq⟩
        · rw [List.cons_append, ← hsplit]
        · intro d hd
          rcases List.mem_cons.mp hd with hdc | hdt
          · rw [hdc]; exact le_of_lt hm
          · exact hbound d hdt
        · intro d hd
          rcases List.mem_cons.mp hd with hdc | hdt
          · rw [hdc]; exact hm
          · exact hpre d hdt
    · rw [if_neg h]
      have hcm : entKey c ≤ m := not_lt.mp h
      rcases ih m sel with ⟨hb, heq⟩ | ⟨s, l₁, l₂, hsplit, hm, hbound, hpre, heq⟩
      · refine Or.inl ⟨?_, heq⟩
        intro d hd
        rcases List.mem_cons.mp hd with hdc | hdt
        · rw [hdc]; exact hcm
        · exact hb d hdt
      · refine Or.inr ⟨s, c :: l₁, l₂, ?_, hm, ?_, ?_, heq⟩
        · rw [List.cons_append, ← hsplit]
        · intro d hd
          rcases List.mem_cons.mp hd with hdc | hdt
          · rw [hdc]; exact le_trans hcm (le_of_lt hm)
          · exact hbound d hdt
        · intro d hd
          rcases List.mem_cons.mp hd with hdc | hdt
          · rw [hdc]; exact lt_of_le_of_lt hcm hm
          · exact hpre d hdt

/-! ### C4 — timestamp strategy -/

/-- C4 counterexample: two versions share the (unique, hence latest)
timestamp; the code selects the first-listed version id `v_b`, not the
lexicographically lowest `version_id` `v_a`. -/
theorem resolveByTimestamp_tie_counterexample :
    resolveByTimestamp
        [⟨some "v_b", none, some "2025-07-27T00:00:00Z", none, none⟩,
         ⟨some "v_a", none, some "2025-07-27T00:00:00Z", none, none⟩] =
      .latestVersion (some "v_b") (some "2025-07-27T00:00:00Z") true ∧
    tsKey ⟨some "v_b", none, some "2025-07-27T00:00:00Z", none, none⟩ =
      tsKey ⟨some "v_a", none, some "2025-07-27T00:00:00Z", none, none⟩ ∧
    ("v_a" : String) < "v_b" := by
  refine ⟨by decide, rfl, ?_⟩
  rw [String.lt_iff_toList_lt]
  exact (charListLt_iff _ _).mp (by decide)

/-- C4 (amended): on a non-empty conflict list the `timestamp` strategy
selects the version whose timestamp (string-compared, default `''`) is
maximal and which comes first in input order among those attaining it;
`version_id` plays no role in tie-breaking. -/
theorem resolveByTimestamp_spec (conflicts : List Conflict)
    (h : conflicts ≠ []) :
    ∃ latest, IsFirstMaxBy tsKey conflicts latest ∧
      resolveByTimestamp conflicts =
        .latestVersion latest.version_id latest.timestamp true := by
  match conflicts, h with
  | c :: cs, _ =>
    exact ⟨pyMaxBy strLtb tsKey c cs,
      pyMaxBy_isFirstMax strLtb strLtb_iff tsKey cs c, rfl⟩

/-- C4 witness (Scenario B): of two versions with timestamps `T1 < T2` the
strategy selects the one carrying `T2`. -/
theorem resolveByTimestamp_spec_witness :
    ∃ latest, IsFirstMaxBy tsKey
        [⟨some "v1", none, some "2025-07-27T00:00:00Z", some 5, none⟩,
         ⟨some "v2", none, some "2025-07-28T00:00:00Z", some 3, none⟩] latest ∧
      resolveByTimestamp
        [⟨some "v1", none, some "2025-07-27T00:00:00Z", some 5, none⟩,
         ⟨some "v2", none, some "2025-07-28T00:00:00Z", some 3, none⟩] =
        .latestVersion latest.version_id latest.timestamp true :=
  resolveByTimestamp_spec _ (List.cons_ne_nil _ _)

/-! ### C5 — entropy strategy -/

/-- C5 counterexample: two versions share the maximal entropy `5`, the
second one has the strictly later timestamp, yet the code selects the
first-listed `v1`: first-in-input-order tie-break, not latest-timestamp. -/
theorem resolveByEntropy_tie_counterexample :
    resolveByEntropy
        [⟨some "v1", none, some "2025-01-01", some 5, none⟩,
         ⟨some "v2", none, some "2025-01-02", some 5, none⟩] =
      .ok (.highestEntropy (some "v1") 5 true) ∧
    entKey ⟨some "v1", none, some "2025-01-01", some 5, none⟩ =
      entKey ⟨some "v2", none, some "2025-01-02", some 5, none⟩ ∧
    tsKey ⟨some "v1", none, some "2025-01-01", some 5, none⟩ <
      tsKey ⟨some "v2", none, some "2025-01-02", some 5, none⟩ := by
  refine ⟨rfl, rfl, ?_⟩
  rw [String.lt_iff_toList_lt]
  exact (charListLt_iff _ _).mp (by decide)

theorem resolveByEntropy_eq_of_scan (c : Conflict) (cs : List Conflict)
    (m : Rat) (s : Conflict) (hscan : entropyScan (c :: cs) = (m, some s)) :
    resolveByEntropy (c :: cs) =
      Except.ok (Resolution.highestEntropy s.version_id m applyResolution) := by
  simp only [resolveByEntropy]
  rw [hscan]

/-- C5 (amended): when some conflict has entropy above the loop's initial
`-1` (in particular whenever entropies are the code's non-negative scores or
the `0` default), the `entropy` strategy selects the version whose
`quantum_entropy` is maximal and which comes first in input order among
those attaining it; the `timestamp` plays no role in tie-breaking. -/
theorem resolveByEntropy_spec (conflicts : List Conflict)
    (h : ∃ c ∈ conflicts, -1 < entKey c) :
    ∃ sel, IsFirstMaxBy entKey conflicts sel ∧
      resolveByEntropy conflicts =
        .ok (.highestEntropy sel.version_id (entKey sel) true) := by
  match conflicts with
  | [] =>
    obtain ⟨c, hc, _⟩ := h
    exact absurd hc (List.not_mem_nil c)
  | c :: cs =>
    rcases entropyFold_spec (c :: cs) (-1) none with ⟨hb, _⟩ |
      ⟨s, l₁, l₂, hsplit, hm, hbound, hpre, heq⟩
    · obtain ⟨c0, hc0, hgt⟩ := h
      exact absurd (hb c0 hc0) (not_le.mpr hgt)
    · refine ⟨s, ⟨?_, hbound, l₁, l₂, hsplit, hpre⟩, ?_⟩
      · rw [hsplit]
        exact List.mem_append_right l₁ (List.mem_cons_self s l₂)
      · exact resolveByEntropy_eq_of_scan c cs (entKey s) s heq

/-- C5 witness (Scenario C): with entropies `5 > 3` the strategy selects
`v1`. -/
theorem resolveByEntropy_spec_witness :
    ∃ sel, IsFirstMaxBy entKey
        [⟨some "v1", none, some "2025-07-27T00:00:00Z", some 5, none⟩,
         ⟨some "v2", none, some "2025-07-28T00:00:00Z", some 3, none⟩] sel ∧
      resolveByEntropy
        [⟨some "v1", none, some "2025-07-27T00:00:00Z", some 5, none⟩,
         ⟨some "v2", none, some "2025-07-28T00:00:00Z", some 3, none⟩] =
        .ok (.highestEntropy sel.version_id (entKey sel) true) :=
  resolveByEntropy_spec _
    ⟨⟨some "v1", none, some "2025-07-27T00:00:00Z", some 5, none⟩,
     List.mem_cons_self _ _, by decide⟩

/-! ### C6 — merge strategy -/

theorem dataGet_nil (k : String) : dataGet ([] : List (String × DVal)) k = none := rfl

theorem dataGet_cons (p : String × DVal) (t : List (String × DVal)) (k : String) :
    dataGet (p :: t) k = if (p.1 == k) = true then some p.2 else dataGet t k := by
  unfold dataGet
  rw [List.find?_cons]
  by_cases hp : (p.1 == k) = true
  · rw [if_pos hp]
    simp only [hp]
    rfl
  · have hp2 : (p.1 == k) = false := by simpa using hp
    rw [if_neg hp]
    simp only [hp2]

theorem dataGet_append (d1 d2 : List (String × DVal)) (k : String) :
    dataGet (d1 ++ d2) k = (dataGet d1 k).or (dataGet d2 k) := by
  unfold dataGet
  rw [List.find?_append]
  cases d1.find? (fun p => p.1 == k) <;> rfl

theorem dataGet_isSome_eq_any (d : List (String × DVal)) (k : String) :
    (dataGet d k).isSome = d.any (fun p => p.1 == k) := by
  induction d with
  | nil => exact rfl
  | cons p t ih =>
    rw [dataGet_cons]
    rw [List.any_cons]
    by_cases hp : (p.1 == k) = true
    · rw [if_pos hp, hp]; rfl
    · have hp2 : (p.1 == k) = false := by simpa using hp
      rw [if_neg hp, hp2, Bool.false_or]
      exact ih

theorem mergeFold_dataGet (d : List (String × DVal)) :
    ∀ (acc : List (String × DVal)) (k : String),
      dataGet
        (d.foldl (fun m kv =>
          if m.any (fun p => p.1 == kv.1) then m else m ++ [kv]) acc) k
        = (dataGet acc k).or (dataGet d k) := by
  induction d with
  | nil =>
    intro acc k
    rw [List.foldl_nil, dataGet_nil, Option.or_none]
  | cons kv rest ih =>
    intro acc k
    rw [List.foldl_cons, ih, dataGet_cons]
    by_cases hany : (acc.any (fun p => p.1 == kv.1)) = true
    · rw [if_pos hany]
      by_cases hk : (kv.1 == k) = true
      · have hkk : kv.1 = k := by simpa using hk
        have hsome : (dataGet acc k).isSome = true := by
          rw [dataGet_isSome_eq_any, ← hkk]
          exact hany
        obtain ⟨v, hv⟩ := Option.isSome_iff_exists.mp hsome
        rw [if_pos hk, hv]
        rfl
      · rw [if_neg hk]
    · rw [if_neg hany, dataGet_append, dataGet_cons, dataGet_nil, Option.or_assoc]
      by_cases hk : (kv.1 == k) = true
      · rw [if_pos hk, if_pos hk]
        rfl
      · rw [if_neg hk, if_neg hk]
        rw [Option.none_or]

theorem mergeData_dataGet (m : List (String × DVal)) (c : Conflict)
    (k : String) :
    dataGet (mergeData m c) k = (dataGet m k).or (dataGet (c.data.getD []) k) := by
  unfold mergeData
  cases c.data with
  | none => rw [Option.getD_none, dataGet_nil, Option.or_none]
  | some d => rw [Option.getD_some]; exact mergeFold_dataGet d m k

theorem firstValueFor_or (k : String) (c : Conflict) (cs : List Conflict) :
    firstValueFor k (c :: cs) =
      (dataGet (c.data.getD []) k).or (firstValueFor k cs) := by
  cases hd : dataGet (c.data.getD []) k with
  | some v => simp only [firstValueFor, hd]; rfl
  | none => simp only [firstValueFor, hd]; rw [Option.none_or]

theorem mergeScanFold_dataGet :
    ∀ (cs : List Conflict) (acc : List (String × DVal)) (k : String),
      dataGet (cs.foldl mergeData acc) k = (dataGet acc k).or (firstValueFor k cs) := by
  intro cs
  induction cs with
  | nil =>
    intro acc k
    rw [List.foldl_nil]
    show dataGet acc k = (dataGet acc k).or none
    rw [Option.or_none]
  | cons c rest ih =>
    intro acc k
    rw [List.foldl_cons, ih, mergeData_dataGet, firstValueFor_or, Option.or_assoc]

theorem setAdd_mem (ss : List String) (s n : String) :
    n ∈ setAdd ss s ↔ n ∈ ss ∨ n = s := by
  unfold setAdd
  by_cases h : s ∈ ss
  · rw [if_pos h]
    constructor
    · exact Or.inl
    · rintro (hn | hn)
      · exact hn
      · rw [hn]; exact h
  · rw [if_neg h, List.mem_append, List.mem_singleton]

theorem setAddFold_mem :
    ∀ (cs : List Conflict) (ss : List String) (n : String),
      n ∈ cs.foldl (fun ss c => setAdd ss (c.source_network.getD "unknown")) ss ↔
        n ∈ ss ∨ ∃ c ∈ cs, c.source_network.getD "unknown" = n := by
  intro cs
  induction cs with
  | nil =>
    intro ss n
    rw [List.foldl_nil]
    simp
  | cons c rest ih =>
    intro ss n
    rw [List.foldl_cons, ih, setAdd_mem]
    constructor
    · rintro (⟨hn | hn⟩ | ⟨c0, hc0, hn⟩)
      · exact Or.inl hn
      · exact Or.inr ⟨c, List.mem_cons_self c rest, hn.symm⟩
      · exact Or.inr ⟨c0, List.mem_cons_of_mem c hc0, hn⟩
    · rintro (hn | ⟨c0, hc0, hn⟩)
      · exact Or.inl (Or.inl hn)
      · rcases List.mem_cons.mp hc0 with hcc | hcr
        · exact Or.inl (Or.inr (by rw [hcc] at hn; exact hn.symm))
        · exact Or.inr ⟨c0, hcr, hn⟩

theorem mergeScan_components (cs : List Conflict) :
    ∀ (acc : List (String × DVal) × List String),
      cs.foldl (fun acc c =>
          (mergeData acc.1 c, setAdd acc.2 (c.source_network.getD "unknown"))) acc
        = (cs.foldl mergeData acc.1,
           cs.foldl (fun ss c => setAdd ss (c.source_network.getD "unknown")) acc.2) := by
  induction cs with
  | nil => intro acc; rfl
  | cons c rest ih =>
    intro acc
    rw [List.foldl_cons, List.foldl_cons, List.foldl_cons]
    exact ih (mergeData acc.1 c, setAdd acc.2 (c.source_network.getD "unknown"))

theorem mem_keys_iff_dataGet (d : List (String × DVal)) (k : String) :
    k ∈ d.map Prod.fst ↔ (dataGet d k).isSome = true := by
  rw [dataGet_isSome_eq_any, List.any_eq_true, List.mem_map]
  constructor
  · rintro ⟨p, hp, hpk⟩
    exact ⟨p, hp, by simpa using hpk⟩
  · rintro ⟨p, hp, hpk⟩
    exact ⟨p, hp, by simpa using hpk⟩

theorem firstValueFor_isSome :
    ∀ (cs : List Conflict) (k : String),
      (firstValueFor k cs).isSome = true ↔
        ∃ c ∈ cs, (dataGet (c.data.getD []) k).isSome = true := by
  intro cs
  induction cs with
  | nil => intro k; simp [firstValueFor]
  | cons c rest ih =>
    intro k
    rw [firstValueFor_or]
    cases hd : dataGet (c.data.getD []) k with
    | some v =>
      constructor
      · intro _
        exact ⟨c, List.mem_cons_self c rest, by rw [hd]; rfl⟩
      · intro _
        rfl
    | none =>
      rw [Option.none_or]
      constructor
      · intro h
        obtain ⟨c0, hc0, hsome⟩ := (ih k).mp h
        exact ⟨c0, List.mem_cons_of_mem c hc0, hsome⟩
      · rintro ⟨c0, hc0, hsome⟩
        rcases List.mem_cons.mp hc0 with hcc | hcr
        · rw [hcc] at hsome
          rw [hd] at hsome
          cases hsome
        · exact (ih k).mpr ⟨c0, hcr, hsome⟩

/-- C6: for a non-empty conflict list whose versions carry dict-valued
`data`, the merge strategy returns a merged map binding exactly the union
of the versions' keys, each key to the value of the first version (in
input order) containing it, and records the set of the versions' source
networks (default `'unknown'`) in the result's sources. -/
theorem resolveByMerge_spec (conflicts : List Conflict) (h : conflicts ≠ [])
    (_hdata : ∀ c ∈ conflicts, c.data ≠ none) :
    ∃ sources fields,
      resolveByMerge conflicts = .merged sources fields true ∧
      (∀ k, dataGet (mergeScan conflicts).1 k = firstValueFor k conflicts) ∧
      (∀ k, k ∈ fields ↔ ∃ c ∈ conflicts, (dataGet (c.data.getD []) k).isSome = true) ∧
      (∀ n, n ∈ sources ↔ ∃ c ∈ conflicts, c.source_network.getD "unknown" = n) := by
  have hscan : mergeScan conflicts =
      (conflicts.foldl mergeData [],
       conflicts.foldl (fun ss c => setAdd ss (c.source_network.getD "unknown")) []) := by
    unfold mergeScan
    exact mergeScan_components conflicts ([], [])
  have hres : resolveByMerge conflicts =
      .merged (mergeScan conflicts).2 ((mergeScan conflicts).1.map Prod.fst)
        applyResolution := by
    match conflicts, h with
    | c :: cs, _ => rfl
  refine ⟨(mergeScan conflicts).2, (mergeScan conflicts).1.map Prod.fst, hres, ?_, ?_, ?_⟩
  · intro k
    rw [hscan]
    show dataGet (conflicts.foldl mergeData []) k = firstValueFor k conflicts
    rw [mergeScanFold_dataGet conflicts [] k, dataGet_nil, Option.none_or]
  · intro k
    rw [mem_keys_iff_dataGet, hscan]
    show (dataGet (conflicts.foldl mergeData []) k).isSome = true ↔ _
    rw [mergeScanFold_dataGet conflicts [] k, dataGet_nil, Option.none_or]
    exact firstValueFor_isSome conflicts k
  · intro n
    rw [hscan]
    show n ∈ conflicts.foldl (fun ss c => setAdd ss (c.source_network.getD "unknown")) [] ↔ _
    rw [setAddFold_mem conflicts [] n]
    simp

/-- C6 witness (Scenario F): on versions `{a:1, b:2}` from `divina_l3` and
`{a:9, c:3}` from `local`, key `"a"` is bound to the first version's value
`1` in the merged map. -/
theorem resolveByMerge_spec_witness :
    dataGet (mergeScan
        [(⟨some "v1", some "divina_l3", none, none,
            some [("a", DVal.n 1), ("b", DVal.n 2)]⟩ : Conflict),
         (⟨some "v2", some "local", none, none,
            some [("a", DVal.n 9), ("c", DVal.n 3)]⟩ : Conflict)]).1 "a" =
      some (DVal.n 1) := by
  obtain ⟨s, f, h1, h2, h3, h4⟩ := resolveByMerge_spec
    [(⟨some "v1", some "divina_l3", none, none,
        some [("a", DVal.n 1), ("b", DVal.n 2)]⟩ : Conflict),
     (⟨some "v2", some "local", none, none,
        some [("a", DVal.n 9), ("c", DVal.n 3)]⟩ : Conflict)]
    (List.cons_ne_nil _ _)
    (by
      intro c hc
      rcases List.mem_cons.mp hc with h1 | h1
      · rw [h1]; intro hx; cases hx
      · rcases List.mem_cons.mp h1 with h2 | h2
        · rw [h2]; intro hx; cases hx
        · cases h2)
  rw [h2 "a"]
  rfl

/-! ### C1 — final status of a push -/

/-- C1 counterexample: a push in which every target reports an error still
ends `COMPLETED` — the code never inspects the per-target results when
setting the final status — where the spec's rule (`specPushStatus`) gives
`FAILED`. -/
theorem push_all_fail_counterexample :
    (sync_memory "op_c1" ["divina_l3", "novasanctum"] "local" "push" "entropy"
        30 [] 0
        ⟨.ok patternEx,
         .ok [("divina_l3", ⟨"error", some "timeout"⟩),
              ("novasanctum", ⟨"error", some "timeout"⟩)]⟩).finalStatus
      = some .COMPLETED ∧
    (∀ r ∈ processResults
        [("divina_l3", ⟨"error", some "timeout"⟩),
         ("novasanctum", ⟨"error", some "timeout"⟩)], r.2 ≠ .success) ∧
    specPushStatus (processResults
        [("divina_l3", ⟨"error", some "timeout"⟩),
         ("novasanctum", ⟨"error", some "timeout"⟩)]) = .FAILED := by
  exact ⟨rfl, by decide, by decide⟩

/-- C1 (amended): a push whose broadcast returns per-network results (no
exception raised) always marks the operation `COMPLETED` — however many
targets failed — records the normalized per-target results under metadata
key `results`, and returns the success dict carrying them. -/
theorem push_sync_completes (opId : String) (targets : List String)
    (src cres : String) (timeout : Rat) (kwargs : List (String × Value))
    (t0 : Nat) (p : QuantumMemoryPattern) (rs : List (String × RawResult))
    (_h : targets ≠ []) :
    (sync_memory opId targets src "push" cres timeout kwargs t0
        ⟨.ok p, .ok rs⟩).finalStatus = some .COMPLETED ∧
    (∃ o, (sync_memory opId targets src "push" cres timeout kwargs t0
        ⟨.ok p, .ok rs⟩).op = some o ∧
      dictGet o.metadata "results" = some (.vnetresults (processResults rs))) ∧
    (sync_memory opId targets src "push" cres timeout kwargs t0
        ⟨.ok p, .ok rs⟩).result = .ok (.success opId (processResults rs)) := by
  refine ⟨rfl, ⟨_, rfl, ?_⟩, rfl⟩
  exact dictGet_dictSet_self _ "results" _

/-- C1 witness: a two-target push with one success and one error ends
`COMPLETED` with both outcomes recorded (Scenario E shape). -/
theorem push_sync_completes_witness :
    (sync_memory "op_c1w" ["divina_l3", "novasanctum"] "local" "push" "entropy"
        30 [] 0
        ⟨.ok patternEx,
         .ok [("divina_l3", ⟨"success", none⟩),
              ("novasanctum", ⟨"error", some "timeout"⟩)]⟩).finalStatus
      = some .COMPLETED ∧
    (∃ o, (sync_memory "op_c1w" ["divina_l3", "novasanctum"] "local" "push"
        "entropy" 30 [] 0
        ⟨.ok patternEx,
         .ok [("divina_l3", ⟨"success", none⟩),
              ("novasanctum", ⟨"error", some "timeout"⟩)]⟩).op = some o ∧
      dictGet o.metadata "results" = some (.vnetresults (processResults
        [("divina_l3", ⟨"success", none⟩),
         ("novasanctum", ⟨"error", some "timeout"⟩)]))) ∧
    (sync_memory "op_c1w" ["divina_l3", "novasanctum"] "local" "push" "entropy"
        30 [] 0
        ⟨.ok patternEx,
         .ok [("divina_l3", ⟨"success", none⟩),
              ("novasanctum", ⟨"error", some "timeout"⟩)]⟩).result
      = .ok (.success "op_c1w" (processResults
        [("divina_l3", ⟨"success", none⟩),
         ("novasanctum", ⟨"error", some "timeout"⟩)])) :=
  push_sync_completes "op_c1w" ["divina_l3", "novasanctum"] "local" "entropy"
    30 [] 0 patternEx
    [("divina_l3", ⟨"success", none⟩), ("novasanctum", ⟨"error", some "timeout"⟩)]
    (List.cons_ne_nil _ _)

/-! ### C2 — no transition out of PENDING skips IN_PROGRESS -/

theorem handleConflict_trace (opId cres : String) (st : OpState) (m : String)
    (cs : List Conflict) :
    ∃ t, (handleConflict opId cres st m cs).trace = st.trace ++ t := by
  unfold handleConflict
  by_cases h : knownResolution cres = true
  · rw [if_pos h]
    cases hr : runResolver cres cs with
    | ok r =>
      refine ⟨[.CONFLICT, .COMPLETED], ?_⟩
      show (st.trace ++ [SyncStatus.CONFLICT]) ++ [SyncStatus.COMPLETED] = _
      rw [List.append_assoc]
      rfl
    | error re =>
      refine ⟨[.CONFLICT, .FAILED], ?_⟩
      show (st.trace ++ [SyncStatus.CONFLICT]) ++ [SyncStatus.FAILED] = _
      rw [List.append_assoc]
      rfl
  · rw [if_neg h]
    refine ⟨[.CONFLICT, .FAILED], ?_⟩
    show (st.trace ++ [SyncStatus.CONFLICT]) ++ [SyncStatus.FAILED] = _
    rw [List.append_assoc]
    rfl

theorem handleConflict_trace_head (opId cres : String) (st : OpState)
    (m : String) (cs : List Conflict)
    (h : st.trace.head? = some .IN_PROGRESS) :
    (handleConflict opId cres st m cs).trace.head? = some .IN_PROGRESS := by
  obtain ⟨t, ht⟩ := handleConflict_trace opId cres st m cs
  rw [ht, List.head?_append, h]
  rfl

/-- C2 counterexample: an unknown sync strategy moves the operation
`PENDING → FAILED` directly; the single status update is `FAILED`, never
`IN_PROGRESS`. -/
theorem unknown_strategy_skips_in_progress :
    (sync_memory "op_c2" ["divina_l3"] "local" "teleport" "entropy" 30 [] 0
        ⟨.ok patternEx, .ok []⟩).trace = [.FAILED] ∧
    (sync_memory "op_c2" ["divina_l3"] "local" "teleport" "entropy" 30 [] 0
        ⟨.ok patternEx, .ok []⟩).trace.head? ≠ some .IN_PROGRESS := by
  exact ⟨rfl, by decide⟩

/-- C2 (amended): for the three implemented strategies (push, pull,
bidirectional), whenever the operation is created (encoding succeeded) its
first status update is `IN_PROGRESS`: those paths never move out of
`PENDING` without passing through `IN_PROGRESS`.  The unknown-strategy path
(see the counterexample) violates the claim. -/
theorem known_strategy_first_update_in_progress (opId : String)
    (targets : List String) (src strat cres : String) (timeout : Rat)
    (kwargs : List (String × Value)) (t0 : Nat) (p : QuantumMemoryPattern)
    (b : BroadcastOutcome)
    (hstrat : strat = "push" ∨ strat = "pull" ∨ strat = "bidirectional") :
    (sync_memory opId targets src strat cres timeout kwargs t0
        ⟨.ok p, b⟩).trace.head? = some .IN_PROGRESS := by
  rcases hstrat with h | h | h <;> subst h
  · cases b with
    | ok rs => rfl
    | raiseConflict m cs => exact handleConflict_trace_head opId cres _ m cs rfl
    | raiseError m => rfl
  · rfl
  · cases b with
    | ok rs => rfl
    | raiseConflict m cs => exact handleConflict_trace_head opId cres _ m cs rfl
    | raiseError m => rfl

/-- C2 witness: a concrete push whose broadcast raises a conflict still
starts with `IN_PROGRESS`. -/
theorem known_strategy_first_update_witness :
    (sync_memory "op_c2w" ["divina_l3"] "local" "push" "timestamp" 30 [] 0
        ⟨.ok patternEx,
         .raiseConflict "Version conflict detected"
           [⟨some "v1", some "divina_l3", some "2025-07-27T00:00:00Z", some 9, none⟩,
            ⟨some "v2", some "local", some "2025-07-27T01:00:00Z", some 8, none⟩]⟩).trace.head?
      = some .IN_PROGRESS :=
  known_strategy_first_update_in_progress "op_c2w" ["divina_l3"] "local" "push"
    "timestamp" 30 [] 0 patternEx
    (.raiseConflict "Version conflict detected"
      [⟨some "v1", some "divina_l3", some "2025-07-27T00:00:00Z", some 9, none⟩,
       ⟨some "v2", some "local", some "2025-07-27T01:00:00Z", some 8, none⟩])
    (Or.inl rfl)

/-! ### C7 — error propagation across the orchestrator boundary -/

theorem handleError_recorded (st : OpState) (e0 : PyErr) :
    ∃ o, (handleError st e0).op = some o ∧ o.status = .FAILED ∧
      (dictGet o.metadata "error").isSome = true := by
  refine ⟨_, rfl, rfl, ?_⟩
  show (dictGet (dictSet _ "error" _) "error").isSome = true
  rw [dictGet_dictSet_self]
  rfl

theorem handleConflict_error_recorded (opId cres : String) (st : OpState)
    (m : String) (cs : List Conflict) (e : PyErr)
    (hres : (handleConflict opId cres st m cs).result = .error e) :
    ∃ o, (handleConflict opId cres st m cs).op = some o ∧ o.status = .FAILED ∧
      (dictGet o.metadata "error").isSome = true := by
  unfold handleConflict at hres ⊢
  by_cases h : knownResolution cres = true
  · rw [if_pos h] at hres ⊢
    cases hr : runResolver cres cs with
    | ok r =>
      rw [hr] at hres
      exact Except.noConfusion hres
    | error re =>
      refine ⟨_, rfl, rfl, ?_⟩
      show (dictGet (dictSet (dictSet _ "error" _) "conflicts" _) "error").isSome = true
      rw [dictGet_dictSet_ne _ _ _ _ (by decide), dictGet_dictSet_self]
      rfl
  · rw [if_neg h]
    refine ⟨_, rfl, rfl, ?_⟩
    show (dictGet (dictSet (dictSet _ "error" _) "conflicts" _) "error").isSome = true
    rw [dictGet_dictSet_ne _ _ _ _ (by decide), dictGet_dictSet_self]
    rfl

/-- C7 counterexample: with an unknown strategy, `sync_memory` re-raises the
`ValueError` to the caller — the exception crosses the orchestrator
boundary instead of being returned inside the result. -/
theorem sync_error_propagates_counterexample :
    (sync_memory "op_c7" ["divina_l3"] "local" "teleport" "entropy" 30 [] 0
        ⟨.ok patternEx, .ok []⟩).result =
      .error (.valueError "Unknown sync strategy: teleport") := rfl

/-- C7 (amended): when encoding succeeds and the run ends in an exception
(dispatch error, unknown strategy, unimplemented pull, or failed conflict
resolution), the operation is marked `FAILED` with an `error` entry in its
metadata — but the exception is still re-raised to the caller rather than
returned in the result; an encoding failure propagates before any operation
exists. -/
theorem sync_memory_error_recorded (opId : String) (targets : List String)
    (src strat cres : String) (timeout : Rat) (kwargs : List (String × Value))
    (t0 : Nat) (p : QuantumMemoryPattern) (b : BroadcastOutcome) (e : PyErr)
    (hres : (sync_memory opId targets src strat cres timeout kwargs t0
        ⟨.ok p, b⟩).result = .error e) :
    ∃ o, (sync_memory opId targets src strat cres timeout kwargs t0
        ⟨.ok p, b⟩).op = some o ∧ o.status = .FAILED ∧
      (dictGet o.metadata "error").isSome = true := by
  by_cases h1 : strat = "push"
  · subst h1
    cases b with
    | ok rs =>
      exact Except.noConfusion
        (show Except.ok (SyncResult.success opId (processResults rs))
          = Except.error e from hres)
    | raiseConflict m cs =>
      exact handleConflict_error_recorded opId cres _ m cs e hres
    | raiseError m => exact handleError_recorded _ _
  · by_cases h2 : strat = "pull"
    · subst h2
      exact handleError_recorded _ _
    · by_cases h3 : strat = "bidirectional"
      · subst h3
        cases b with
        | ok rs => exact handleError_recorded _ _
        | raiseConflict m cs =>
          exact handleConflict_error_recorded opId cres _ m cs e hres
        | raiseError m => exact handleError_recorded _ _
      · simp only [sync_memory]
        rw [if_neg h1, if_neg h2, if_neg h3]
        refine ⟨_, rfl, rfl, ?_⟩
        show (dictGet (dictSet _ "error" _) "error").isSome = true
        rw [dictGet_dictSet_self]
        rfl

/-- C7 witness: the unimplemented pull strategy ends the operation FAILED
with the error recorded. -/
theorem sync_memory_error_recorded_witness :
    ∃ o, (sync_memory "op_c7w" ["divina_l3"] "local" "pull" "entropy" 30 [] 0
        ⟨.ok patternEx, .ok []⟩).op = some o ∧ o.status = .FAILED ∧
      (dictGet o.metadata "error").isSome = true :=
  sync_memory_error_recorded "op_c7w" ["divina_l3"] "local" "pull" "entropy"
    30 [] 0 patternEx (.ok []) (.notImplementedError "Pull sync not yet implemented")
    rfl

/-! ### C3 — determinism of `encode_memory`'s pattern id -/

theorem patternIdOf_encode (m : String) (o : List (String × Nat)) (e : Rat) :
    patternIdOf (encode_memory m o e) = (mostProbable o).map sha256HexOfString := by
  unfold encode_memory patternIdOf
  cases mostProbable o <;> rfl

set_option maxRecDepth 200000 in
/-- C3 counterexample: the same serialized record (Scenario A's
`{"content": "hello"}`) encoded twice, with the unseeded 1024-shot
measurement sampling returning differently-ordered counts, yields two
patterns whose `pattern_id`s differ — the id is a hash of the sampled
most-probable state, not of the record content. -/
theorem encode_memory_id_counterexample :
    (patternIdOf (encode_memory jsonHello
        [("00000000", 700), ("00000001", 324)] 0)).isSome = true ∧
    (patternIdOf (encode_memory jsonHello
        [("00000001", 700), ("00000000", 324)] 0)).isSome = true ∧
    patternIdOf (encode_memory jsonHello [("00000000", 700), ("00000001", 324)] 0) ≠
      patternIdOf (encode_memory jsonHello [("00000001", 700), ("00000000", 324)] 0) := by
  refine ⟨rfl, rfl, ?_⟩
  rw [patternIdOf_encode, patternIdOf_encode]
  decide

/-- C3 (amended): `pattern_id` is a deterministic function of the sampled
most-probable measurement outcome alone: two encodings — even of different
serialized contents — receive identical pattern ids whenever their sampled
counts have the same most-probable state; two encodings of byte-identical
content are only guaranteed identical ids if the sampling repeats. -/
theorem encode_memory_id_of_outcome (m1 m2 : String)
    (o1 o2 : List (String × Nat)) (e1 e2 : Rat)
    (p1 p2 : QuantumMemoryPattern)
    (h1 : encode_memory m1 o1 e1 = .ok p1)
    (h2 : encode_memory m2 o2 e2 = .ok p2)
    (hmp : mostProbable o1 = mostProbable o2) :
    p1.pattern_id = p2.pattern_id := by
  have q1 : some p1.pattern_id = (mostProbable o1).map sha256HexOfString := by
    rw [← patternIdOf_encode m1 o1 e1, h1]
    rfl
  have q2 : some p2.pattern_id = (mostProbable o2).map sha256HexOfString := by
    rw [← patternIdOf_encode m2 o2 e2, h2]
    rfl
  rw [hmp, ← q2] at q1
  exact Option.some.inj q1

/-- C3 witness: two records with different serialized content but the same
sampled outcome receive the same pattern id. -/
theorem encode_memory_id_of_outcome_witness :
    ∃ p1 p2, encode_memory jsonHello [("00000000", 1024)] 0 = .ok p1 ∧
      encode_memory "\x7b\x7d" [("00000000", 1024)] 0 = .ok p2 ∧
      p1.pattern_id = p2.pattern_id := by
  refine ⟨_, _, rfl, rfl, ?_⟩
  exact encode_memory_id_of_outcome jsonHello "\x7b\x7d"
    [("00000000", 1024)] [("00000000", 1024)] 0 0 _ _ rfl rfl rfl
